import Mathlib

/-!
Verification development for the POS front end's client-side caching,
search-indexing and cart-pricing subsystem.

The definitions below are shallow embeddings of the TypeScript source:
* `src/lib/stores/pos-store.ts` (cart, pricing, last-sold-price cache),
* `src/lib/hooks/use-debounced-search.ts` (search index query engine),
* `src/lib/hooks/use-shallow-store.ts` (cart summary),
* `src/lib/hooks/use-cached-data.ts` and `src/lib/database.ts`
  (staleness-aware fetch cache over the durable mirror),
* `src/components/pos/product-grid.tsx` (bulk last-sold-price fetch).

JavaScript numbers are modelled as exact rationals (`ℚ`), timestamps as
integers, and JavaScript truthiness of optional numbers/strings is modelled
explicitly (`jsTruthy`, `0`/`""`/`undefined` are falsy).  `Map` objects that
are only read through `get`/`set`/`clear` are modelled as functions
`String → Option _`; the IndexedDB object store, whose full contents are
observable through `getAll`, is modelled as a keyed list.
-/

namespace POSModel

/-- Tax mode: `inclusive` (price already contains tax) or `exclusive`. -/
inductive TaxMode where
  | inclusive
  | exclusive
deriving DecidableEq, Repr

/-- Active pricing strategy of the store. -/
inductive Strategy where
  | default
  | lastSoldPrice
deriving DecidableEq, Repr

/-- Where a cart line's price came from (`pricingSource`). -/
inductive PricingSource where
  | default
  | lastSold
deriving DecidableEq, Repr

/-- Product record (`Product` in `pos-store.ts`).  Optional numeric fields
are `Option ℚ`, optional strings `Option String`. -/
structure Product where
  id : String
  name : String
  price : ℚ
  stock : ℚ
  sku : String
  group_name : Option String := none
  tax_id : Option String := none
  tax_percentage : Option ℚ := none
  storedUnit : Option String := none
  piecePrice : Option ℚ := none
  cartonPrice : Option ℚ := none
  piecesPerCarton : Option ℚ := none
  hasConversion : Option Bool := none
  defaultUnit : Option String := none
deriving DecidableEq, Repr

/-- Cart line item (`CartItem` in `pos-store.ts`). -/
structure CartItem where
  id : String
  name : String
  price : ℚ
  qty : ℚ
  unit : String
  storedUnit : Option String := none
  tax_id : Option String := none
  tax_percentage : Option ℚ := none
  customPrice : Option ℚ := none
  originalPrice : Option ℚ := none
  pricingSource : Option PricingSource := none
  lastSoldDate : Option String := none
deriving DecidableEq, Repr

/-- Last-sold-price cache entry (`LastSoldPrice` in `pos-store.ts`). -/
structure LastSoldPrice where
  productId : String
  branchId : String
  unit : String
  price : ℚ
  date : String
  taxMode : TaxMode
deriving DecidableEq, Repr

/-- Selected branch (`{ id, name }`). -/
structure Branch where
  id : String
  name : String
deriving DecidableEq, Repr

/-- Per-product price-fetch status (`'loading' | 'loaded' | 'error'`). -/
inductive FetchStatus where
  | loading
  | loaded
  | error
deriving DecidableEq, Repr

/-- The body of the POST issued to `/api/pos/save-last-sold-price`. -/
structure SaveRequest where
  product_id : String
  branch_id : String
  unit : String
  price : ℚ
  tax_mode : TaxMode
deriving DecidableEq, Repr

/-- The slice of the zustand store state that the verified operations
read or write. -/
structure POSState where
  cart : List CartItem
  taxMode : TaxMode
  selectedBranch : Option Branch
  pricingStrategy : Strategy
  lastSoldPrices : String → Option LastSoldPrice
  priceFetchingStatus : String → Option FetchStatus

/-- JavaScript truthiness of an optional number: `undefined` and `0` are
falsy, every other number is truthy. -/
def jsTruthy : Option ℚ → Bool
  | none => false
  | some c => decide (c ≠ 0)

/-- `getLastSoldPrice` from `pos-store.ts`: look the composite key
`productId_branchId_unit` up in the cache (`|| null` collapses to the
same `Option`). -/
def getLastSoldPrice (s : POSState) (productId branchId unit : String) :
    Option LastSoldPrice :=
  s.lastSoldPrices (productId ++ "_" ++ branchId ++ "_" ++ unit)

/-- `setLastSoldPrice` from `pos-store.ts`: copy the map and overwrite one
key. -/
def mapSetLSP (m : String → Option LastSoldPrice) (key : String)
    (v : LastSoldPrice) : String → Option LastSoldPrice :=
  fun k => if k = key then some v else m k

/-- `setPriceFetchingStatus` from `pos-store.ts`. -/
def statusSet (m : String → Option FetchStatus) (key : String)
    (v : FetchStatus) : String → Option FetchStatus :=
  fun k => if k = key then some v else m k

/-- The merge-key predicate of `addToCart` (`pos-store.ts` lines 237-239):
`item.id === product.id && item.unit === unit &&
(customPrice ? item.customPrice === customPrice : !item.customPrice)`. -/
def matchesLine (item : CartItem) (pid unit : String) (cp : Option ℚ) : Bool :=
  decide (item.id = pid) && decide (item.unit = unit) &&
    (if jsTruthy cp then decide (item.customPrice = cp)
     else ! jsTruthy item.customPrice)

/-- Catalog unit price plus tax adjustment (`pos-store.ts` lines 275-301,
identical in the strategy-fallback and default branches):
`cartonPrice` for `"CTN"` and `piecePrice` for `"PCS"` when truthy, else
base `price`; multiplied by `1.15` when tax mode is inclusive. -/
def defaultCalcPrice (product : Product) (unit : String) (taxMode : TaxMode) : ℚ :=
  let base :=
    if unit = "CTN" ∧ jsTruthy product.cartonPrice then product.cartonPrice.getD 0
    else if unit = "PCS" ∧ jsTruthy product.piecePrice then product.piecePrice.getD 0
    else product.price
  if taxMode = .inclusive then base * (115/100) else base

/-- Result of the non-custom price calculation of `addToCart`. -/
structure CalcPrice where
  price : ℚ
  source : PricingSource
  date : Option String
deriving DecidableEq, Repr

/-- The non-custom price calculation of `addToCart`
(`pos-store.ts` lines 258-303): under the `lastSoldPrice` strategy with a
selected branch, use the cached last-sold price re-adjusted when its stored
tax mode differs from the current one (`/1.15` inclusive→exclusive,
`*1.15` exclusive→inclusive); otherwise fall back to the catalog
calculation. -/
def computedPrice (s : POSState) (product : Product) (unit : String) : CalcPrice :=
  match s.pricingStrategy, s.selectedBranch with
  | .lastSoldPrice, some br =>
    match getLastSoldPrice s product.id br.id unit with
    | some lsp =>
      let p :=
        if lsp.taxMode ≠ s.taxMode then
          if lsp.taxMode = .inclusive ∧ s.taxMode = .exclusive then
            lsp.price / (115/100)
          else if lsp.taxMode = .exclusive ∧ s.taxMode = .inclusive then
            lsp.price * (115/100)
          else lsp.price
        else lsp.price
      ⟨p, .lastSold, some lsp.date⟩
    | none => ⟨defaultCalcPrice product unit s.taxMode, .default, none⟩
  | _, _ => ⟨defaultCalcPrice product unit s.taxMode, .default, none⟩

/-- The effective price of a fresh cart line (`pos-store.ts` lines
253-303): the custom price when truthy, else the non-custom
calculation. -/
def finalPriceDef (s : POSState) (product : Product) (unit : String)
    (customPrice : Option ℚ) : ℚ :=
  if jsTruthy customPrice then customPrice.getD 0
  else (computedPrice s product unit).price

/-- The cart line appended by `addToCart` when no existing line matches
(`pos-store.ts` lines 307-322). -/
def newItemDef (s : POSState) (product : Product) (quantity : ℚ)
    (unit : String) (customPrice : Option ℚ) : CartItem :=
  { id := product.id
    name := product.name
    price := finalPriceDef s product unit customPrice
    qty := quantity
    unit := unit
    storedUnit := some (match product.storedUnit with
      | some st => if st ≠ "" then st else unit
      | none => unit)
    tax_id := some (product.tax_id.getD (""))
    tax_percentage := some (product.tax_percentage.getD 0)
    customPrice := customPrice
    originalPrice := some (finalPriceDef s product unit customPrice)
    pricingSource := some (if jsTruthy customPrice then PricingSource.default
      else (computedPrice s product unit).source)
    lastSoldDate := if jsTruthy customPrice then none
      else (computedPrice s product unit).date }

/-- The fire-and-forget save request of `addToCart` (`pos-store.ts` lines
324-363), guarded exactly as written:
`defaultPrice = finalPrice - (customPrice || 0) + (customPrice || 0)` and
the save fires only when `|customPrice - defaultPrice| > 0.01`. -/
def saveDef (s : POSState) (product : Product) (unit : String)
    (customPrice : Option ℚ) : Option SaveRequest :=
  match customPrice, s.selectedBranch with
  | some c, some br =>
    if c ≠ 0 then
      if |c - (finalPriceDef s product unit (some c) - c + c)| > 1/100 then
        some { product_id := product.id, branch_id := br.id, unit := unit,
               price := c, tax_mode := s.taxMode }
      else none
    else none
  | _, _ => none

/-- `addToCart` from `pos-store.ts` (lines 235-365).  Returns the new state
together with the save request the fire-and-forget persistence block posts
to `/api/pos/save-last-sold-price`, or `none` when no save is issued. -/
def addToCart (s : POSState) (product : Product) (quantity : ℚ)
    (unit : String) (customPrice : Option ℚ) : POSState × Option SaveRequest :=
  if s.cart.any (fun item => matchesLine item product.id unit customPrice) then
    ({ s with cart := s.cart.map (fun item =>
        if matchesLine item product.id unit customPrice then
          { item with qty := item.qty + quantity }
        else item) }, none)
  else
    ({ s with cart := s.cart ++ [newItemDef s product quantity unit customPrice] },
     saveDef s product unit customPrice)

/-- `setSelectedBranch` from `pos-store.ts` (lines 392-398): store the
branch, and clear the last-sold-price cache only when the new branch is
truthy (non-null). -/
def setSelectedBranch (s : POSState) (branch : Option Branch) : POSState :=
  let s1 := { s with selectedBranch := branch }
  if branch.isSome then { s1 with lastSoldPrices := fun _ => none } else s1

/-- Result of `useCartSummary` (`use-shallow-store.ts` lines 103-119). -/
structure CartSummary where
  cartCount : ℚ
  subtotal : ℚ
  tax : ℚ
  total : ℚ
  taxMode : TaxMode
deriving DecidableEq, Repr

/-- `useCartSummary` from `use-shallow-store.ts`: reduce quantities and
`price * qty`, then derive tax and total from the tax mode with
`TAX_RATE = 0.15`. -/
def cartSummary (cart : List CartItem) (taxMode : TaxMode) : CartSummary :=
  let cartCount := cart.foldl (fun t item => t + item.qty) 0
  let subtotal := cart.foldl (fun t item => t + item.price * item.qty) 0
  let rate : ℚ := 15/100
  let tax := if taxMode = .inclusive then subtotal * (rate / (1 + rate))
             else subtotal * rate
  let total := if taxMode = .inclusive then subtotal else subtotal + tax
  ⟨cartCount, subtotal, tax, total, taxMode⟩

/-! ### Search index query engine (`use-debounced-search.ts`)

Strings handled by the query engine are modelled as `List Char`. -/

/-- Whitespace for the purposes of `\s` splitting and `trim`. -/
def isWsChar (c : Char) : Bool :=
  c = ' ' || c = '\t' || c = '\n' || c = '\r'

/-- A string is blank when it trims to the empty string (`!query.trim()`). -/
def isBlank (s : List Char) : Bool := s.all isWsChar

/-- `hay.startsWith(needle)` on character lists. -/
def strStartsWith : List Char → List Char → Bool
  | _, [] => true
  | [], _ :: _ => false
  | a :: as, b :: bs => decide (a = b) && strStartsWith as bs

/-- `hay.includes(needle)` on character lists. -/
def strContains : List Char → List Char → Bool
  | [], needle => decide (needle = [])
  | c :: t, needle => strStartsWith (c :: t) needle || strContains t needle

/-- `s.split(/\s+/).filter(Boolean)`: whitespace-separated nonempty
tokens, via an accumulator of the current token's reversed characters. -/
def splitWsAux : List Char → List Char → List (List Char)
  | [], acc => if acc = [] then [] else [acc.reverse]
  | c :: rest, acc =>
    if isWsChar c then
      if acc = [] then splitWsAux rest [] else acc.reverse :: splitWsAux rest []
    else splitWsAux rest (c :: acc)

/-- Split a string into whitespace-separated nonempty tokens. -/
def splitWs (s : List Char) : List (List Char) := splitWsAux s []

/-- Search index entry (`SearchIndex<T>` in `use-debounced-search.ts`). -/
structure SearchEntry (α : Type) where
  item : α
  searchText : List Char
  keywords : List (List Char)

/-- Score contribution of one (query word, keyword) pair
(`use-debounced-search.ts` lines 84-92): `(len(qw)/len(kw))*10` when the
keyword contains the query word, plus a flat `20` when it starts with it. -/
def keywordScore (qw kw : List Char) : ℚ :=
  (if strContains kw qw then (qw.length : ℚ) / (kw.length : ℚ) * 10 else 0) +
  (if strStartsWith kw qw then 20 else 0)

/-- Score of one index entry for a query (`use-debounced-search.ts`
lines 76-93): `+100` when `searchText` contains the full lowercased query,
plus the keyword contributions. -/
def entryScore {α : Type} (e : SearchEntry α) (lowerQuery : List Char)
    (queryWords : List (List Char)) : ℚ :=
  (if strContains e.searchText lowerQuery then 100 else 0) +
  (queryWords.map (fun qw => (e.keywords.map (keywordScore qw)).sum)).sum

/-- The scan loop of `searchIndex` (`use-debounced-search.ts` lines 75-101):
push positive-score entries onto the candidate list and break as soon as
`results.length >= limit * 2` (checked after each entry, the bound here is
passed as `limit2 = limit * 2`). -/
def scanLoop {α : Type} (lowerQuery : List Char) (queryWords : List (List Char))
    (limit2 : ℕ) : List (SearchEntry α) → List (α × ℚ) → List (α × ℚ)
  | [], acc => acc
  | e :: rest, acc =>
    let acc' := if 0 < entryScore e lowerQuery queryWords then
        acc ++ [(e.item, entryScore e lowerQuery queryWords)]
      else acc
    if limit2 ≤ acc'.length then acc'
    else scanLoop lowerQuery queryWords limit2 rest acc'

/-- Stable insertion of a scored candidate into a descending-sorted list:
the new element goes before the first strictly-smaller score, i.e. after
all earlier candidates with an equal or larger score.  This matches the
stable JavaScript `sort((a, b) => b.score - a.score)`. -/
def insertDesc {α : Type} (x : α × ℚ) : List (α × ℚ) → List (α × ℚ)
  | [] => [x]
  | y :: ys => if y.2 ≤ x.2 then x :: y :: ys else y :: insertDesc x ys

/-- Stable sort of scored candidates by descending score. -/
def sortDesc {α : Type} : List (α × ℚ) → List (α × ℚ)
  | [] => []
  | x :: xs => insertDesc x (sortDesc xs)

/-- `searchIndex` from `use-debounced-search.ts` (lines 63-108): blank
queries return `[]`; otherwise lowercase the query, split it into words,
scan with early exit at `limit * 2` candidates, sort descending and return
the top `limit` original records. -/
def searchIndexFn {α : Type} (index : List (SearchEntry α)) (query : List Char)
    (limit : ℕ) : List α :=
  if isBlank query then []
  else
    let lowerQuery := query.map Char.toLower
    let queryWords := splitWs lowerQuery
    let results := scanLoop lowerQuery queryWords (limit * 2) index []
    ((sortDesc results).take limit).map (·.1)

/-- The reference query algorithm exactly as the specification words it
(for the refinement claim about the query engine): score every entry in
order, keep only entries with score `> 0`, stop the scan as soon as
`2 × limit` positive-score candidates have been accumulated (equivalently,
keep the first `2 × limit` positive-score entries), sort the survivors by
descending score and return the original records of the top `limit`. -/
def searchIndexSpec {α : Type} (index : List (SearchEntry α)) (query : List Char)
    (limit : ℕ) : List α :=
  if isBlank query then []
  else
    let lowerQuery := query.map Char.toLower
    let queryWords := splitWs lowerQuery
    let scored := index.map (fun e => (e.item, entryScore e lowerQuery queryWords))
    let candidates := (scored.filter (fun r => decide (0 < r.2))).take (2 * limit)
    ((sortDesc candidates).take limit).map (·.1)

/-! ### Staleness-aware fetch cache (`use-cached-data.ts`, `database.ts`) -/

/-- Sync metadata status. -/
inductive SyncStatus where
  | syncing
  | synced
  | error
deriving DecidableEq, Repr

/-- `cacheManager.isStale` (`database.ts` lines 331-338): stale when there
is no metadata or its `lastSync` is falsy, else when
`Date.now() - lastSync > maxAge` (strictly greater). -/
def isStale (lastSync : Option ℤ) (now maxAge : ℤ) : Bool :=
  match lastSync with
  | none => true
  | some t => if t = 0 then true else decide (now - t > maxAge)

/-- Observable outcome of one `queryFn` run of `useCachedProducts` /
`useCachedCustomers`: the returned (or propagated) value, whether a
network fetch was attempted, what was written to the mirror, whether the
non-fatal offline warning toast fired, and whether a non-blocking
background refresh was kicked off. -/
structure ReadOutcome where
  result : Except Unit (List Product)
  networkAttempted : Bool
  mirrorWrite : Option (List Product)
  warned : Bool
  backgroundRefresh : Bool
deriving Repr

/-- The `queryFn` of `useCachedProducts` (`use-cached-data.ts` lines
33-70), with the network call as the fallible operation: serve the mirror
when it is non-empty and not stale (kicking off a background refresh when
enabled); otherwise fetch, write the result to the mirror and return it;
on fetch failure fall back to a non-empty mirror with a warning, else
propagate the error. -/
def readCollection (mirror : List Product) (lastSync : Option ℤ)
    (now maxAge : ℤ) (enableBackgroundSync : Bool)
    (network : Except Unit (List Product)) : ReadOutcome :=
  if mirror ≠ [] ∧ isStale lastSync now maxAge = false then
    { result := .ok mirror, networkAttempted := false, mirrorWrite := none,
      warned := false, backgroundRefresh := enableBackgroundSync }
  else
    match network with
    | .ok items =>
      { result := .ok items, networkAttempted := true, mirrorWrite := some items,
        warned := false, backgroundRefresh := false }
    | .error e =>
      if mirror ≠ [] then
        { result := .ok mirror, networkAttempted := true, mirrorWrite := none,
          warned := true, backgroundRefresh := false }
      else
        { result := .error e, networkAttempted := true, mirrorWrite := none,
          warned := false, backgroundRefresh := false }

/-- Whether an `Except` value is the error case. -/
def isErr : Except Unit (List Product) → Bool
  | .error _ => true
  | .ok _ => false

/-! ### Durable mirror store (`database.ts`)

The IndexedDB `products` object store keys records by `id`
(`keyPath: 'id'`), so it holds at most one record per id; `put` replaces
the record with the same key or inserts a new one.  `getAll` exposes the
records (their order is abstracted away; the claims compare contents
by id). -/

/-- A persisted mirror record: the product plus the sync stamps. -/
structure StoredProduct where
  product : Product
  lastUpdated : ℤ
  syncVersion : ℤ
deriving DecidableEq, Repr

/-- `tx.store.put`: replace the record with the same id, or append. -/
def putRecord : List StoredProduct → StoredProduct → List StoredProduct
  | [], r => [r]
  | s :: st, r =>
    if s.product.id = r.product.id then r :: st else s :: putRecord st r

/-- Per-collection sync metadata (`metadata` object store). -/
structure MetaRecord where
  lastSync : ℤ
  version : ℤ
  status : SyncStatus
deriving DecidableEq, Repr

/-- The mirror database for one collection: keyed record store plus its
sync metadata. -/
structure MirrorDB where
  store : List StoredProduct
  meta : Option MetaRecord
deriving DecidableEq, Repr

/-- Stamp a product with `lastUpdated`/`syncVersion` (both `Date.now()`
in `productsCache.set`). -/
def stamp (now : ℤ) (p : Product) : StoredProduct := ⟨p, now, now⟩

/-- `productsCache.set` (`database.ts` lines 118-141): `put` every record
stamped with the same `now`, then overwrite the sync metadata with
`status = synced`. -/
def dbSet (db : MirrorDB) (products : List Product) (now : ℤ) : MirrorDB :=
  { store := (products.map (stamp now)).foldl putRecord db.store,
    meta := some ⟨now, now, .synced⟩ }

/-- `productsCache.getAll` (`database.ts` lines 97-116): all stored
records, stripped back to plain products. -/
def dbGetAll (db : MirrorDB) : List Product := db.store.map (·.product)

/-- Lookup of a stored record by id. -/
def byId (st : List StoredProduct) (i : String) : Option StoredProduct :=
  st.find? (fun sp => decide (sp.product.id = i))

/-- Lookup of a product by id in a plain record list. -/
def findById (ps : List Product) (i : String) : Option Product :=
  ps.find? (fun p => decide (p.id = i))

/-! ### Bulk last-sold-price fetch (`product-grid.tsx`) -/

/-- One row of the `/api/pos/last-sold-prices` response. -/
structure PriceRow where
  product_id : String
  branch_id : String
  unit : String
  price : ℚ
  created_at : String
  tax_mode : TaxMode
deriving DecidableEq, Repr

/-- Set the same fetch status for every id in a list, in order. -/
def setAllStatus (σ : String → Option FetchStatus) (ids : List String)
    (v : FetchStatus) : String → Option FetchStatus :=
  ids.foldl (fun σ i => statusSet σ i v) σ

/-- The per-row success handler of `fetchLastSoldPrices`
(`product-grid.tsx` lines 112-124): store the row in the last-sold-price
cache under its composite key and set the product's fetch status to
`loaded`. -/
def applyRow (st : POSState) (r : PriceRow) : POSState :=
  { st with
    lastSoldPrices := mapSetLSP st.lastSoldPrices
      (r.product_id ++ "_" ++ r.branch_id ++ "_" ++ r.unit)
      ⟨r.product_id, r.branch_id, r.unit, r.price, r.created_at, r.tax_mode⟩,
    priceFetchingStatus := statusSet st.priceFetchingStatus r.product_id .loaded }

/-- `fetchLastSoldPrices` from `product-grid.tsx` (lines 82-141).  The
cycle is a no-op unless the strategy is `lastSoldPrice`, a branch is
selected and there are filtered products.  Otherwise the first 60 filtered
products' ids are marked `loading`; on a failed request they are all set
to `error`; on a successful response every returned row populates the
last-sold-price cache and sets its product's status to `loaded`, then
every requested id without a returned row is set to `error`.  The second
component is the ordered log of status writes performed by the cycle.
The repository's route for this endpoint returns `success: true` with a
`prices` array on every 200 response, so an ok response carries the row
list and every non-ok or failed request lands in the catch block. -/
def fetchCycle (s : POSState) (filtered : List Product)
    (response : Except Unit (List PriceRow)) :
    POSState × List (String × FetchStatus) :=
  if s.pricingStrategy ≠ .lastSoldPrice ∨ s.selectedBranch = none ∨ filtered = [] then
    (s, [])
  else
    let visibleIds := (filtered.take 60).map (·.id)
    let loadLog := visibleIds.map (fun i => (i, FetchStatus.loading))
    let σ1 := setAllStatus s.priceFetchingStatus visibleIds .loading
    match response with
    | .error _ =>
      ({ s with priceFetchingStatus := setAllStatus σ1 visibleIds .error },
       loadLog ++ visibleIds.map (fun i => (i, FetchStatus.error)))
    | .ok rows =>
      let s2 := rows.foldl applyRow { s with priceFetchingStatus := σ1 }
      let found := rows.map (·.product_id)
      let missing := visibleIds.filter (fun i => decide (i ∉ found))
      ({ s2 with priceFetchingStatus := setAllStatus s2.priceFetchingStatus missing .error },
       loadLog ++ rows.map (fun r => (r.product_id, FetchStatus.loaded))
         ++ missing.map (fun i => (i, FetchStatus.error)))

/-- Number of resolution writes (status writes other than `loading`) a
fetch cycle's log contains for a given product id. -/
def resolvedCount (log : List (String × FetchStatus)) (i : String) : ℕ :=
  (log.filter (fun e => decide (e.1 = i) && decide (e.2 ≠ FetchStatus.loading))).length

/-! ### Concrete fixtures used by witnesses and counterexamples -/

/-- A plain catalog product. -/
def prod0 : Product :=
  { id := "P1", name := "Widget", price := 10, stock := 5, sku := "SKU1" }

/-- A second product with a different id. -/
def prodQ : Product :=
  { id := "Q1", name := "Gadget", price := 7, stock := 3, sku := "SKU2" }

/-- A product that only ever lives in the mirror (not in any sync batch). -/
def prodZ : Product :=
  { id := "Z1", name := "Stale", price := 1, stock := 0, sku := "SKU0" }

/-- The empty last-sold-price cache. -/
def emptyLSP : String → Option LastSoldPrice := fun _ => none

/-- The empty price-fetch status map. -/
def emptyStatus : String → Option FetchStatus := fun _ => none

/-- A fresh store state: empty cart, exclusive tax, branch `B1` selected,
default pricing strategy, empty caches. -/
def posState0 : POSState :=
  ⟨[], .exclusive, some ⟨"B1", "Main"⟩, .default, emptyLSP, emptyStatus⟩

/-- A cached last-sold price for `(P1, B1, PCS)`. -/
def lsp0 : LastSoldPrice := ⟨"P1", "B1", "PCS", 12, "2024-01-01", .exclusive⟩

/-- Like `posState0` but with `lsp0` in the last-sold-price cache. -/
def stateWithLSP : POSState :=
  ⟨[], .exclusive, some ⟨"B1", "Main"⟩, .default,
    mapSetLSP emptyLSP ("P1_B1_PCS") lsp0, emptyStatus⟩

/-- Like `posState0` but with the `lastSoldPrice` strategy active. -/
def stateLS : POSState :=
  ⟨[], .exclusive, some ⟨"B1", "Main"⟩, .lastSoldPrice, emptyLSP, emptyStatus⟩

/-! ### C1 — custom-price persistence -/

/-- The save block of `addToCart` can never fire: when a custom price is
supplied, `finalPrice` is the custom price itself, so the code's
`defaultPrice = finalPrice - customPrice + customPrice` equals the custom
price and `|customPrice - defaultPrice| > 0.01` is always false. -/
theorem saveDef_eq_none (s : POSState) (p : Product) (u : String)
    (cp : Option ℚ) : saveDef s p u cp = none := by
  unfold saveDef
  cases cp with
  | none => cases s.selectedBranch <;> rfl
  | some c =>
    cases s.selectedBranch with
    | none => rfl
    | some br =>
      by_cases hc : c = 0
      · simp [hc]
      · have hf : finalPriceDef s p u (some c) = c := by
          simp [finalPriceDef, jsTruthy, hc]
        have h0 : |c - (c - c + c)| = 0 := by ring_nf; simp
        simp [hc, hf, h0]

/-- `addToCart` never issues a save request, on either branch. -/
theorem addToCart_save_eq_none (s : POSState) (p : Product) (q : ℚ)
    (u : String) (cp : Option ℚ) : (addToCart s p q u cp).2 = none := by
  unfold addToCart
  split
  · rfl
  · exact saveDef_eq_none s p u cp

/-- C1: the claim is that an explicit custom price on a new cart line is
persisted to the remote last-sold-price store exactly when it differs by
more than `0.01` from the non-custom calculation.  The code instead
compares the custom price against itself, so no save request is ever
issued: at the failing input (catalog price `10`, custom price `50`,
branch selected, default strategy, exclusive tax) the non-custom
calculation yields `10`, the difference `40` exceeds the tolerance, yet
`addToCart` emits no save request — and indeed it emits none on any
input. -/
theorem addToCart_custom_price_never_persisted :
    (∀ (s : POSState) (p : Product) (q : ℚ) (u : String) (cp : Option ℚ),
      (addToCart s p q u cp).2 = none) ∧
    (addToCart posState0 prod0 1 "PCS" (some 50)).2 = none ∧
    (computedPrice posState0 prod0 ("PCS")).price = 10 ∧
    |(50 : ℚ) - (computedPrice posState0 prod0 ("PCS")).price| > 1/100 := by
  refine ⟨addToCart_save_eq_none, addToCart_save_eq_none _ _ _ _ _, ?_, ?_⟩
  · decide
  · have h10 : (computedPrice posState0 prod0 ("PCS")).price = 10 := by decide
    rw [h10]
    rw [show (50 : ℚ) - 10 = 40 by norm_num, abs_of_pos (by norm_num)]
    norm_num

/-! ### C4 — cart summary -/

/-- Folding `t + f i` over a list sums the mapped values. -/
theorem foldl_add_map_sum (f : CartItem → ℚ) :
    ∀ (cart : List CartItem) (a : ℚ),
      cart.foldl (fun t i => t + f i) a = a + (cart.map f).sum := by
  intro cart
  induction cart with
  | nil => simp
  | cons x xs ih =>
    intro a
    simp only [List.foldl_cons, List.map_cons, List.sum_cons, ih]
    ring

/-- C4: for every cart and tax mode, the derived summary satisfies
`cartCount = Σ qty`, `subtotal = Σ price·qty`, inclusive mode gives
`tax = subtotal · 0.15/(1+0.15)` and `total = subtotal`, exclusive mode
gives `tax = subtotal · 0.15` and `total = subtotal + tax`. -/
theorem cartSummary_formulas (cart : List CartItem) (mode : TaxMode) :
    (cartSummary cart mode).cartCount = (cart.map (·.qty)).sum ∧
    (cartSummary cart mode).subtotal = (cart.map (fun i => i.price * i.qty)).sum ∧
    (cartSummary cart mode).tax =
      (if mode = .inclusive then
        (cartSummary cart mode).subtotal * ((15/100) / (1 + (15/100 : ℚ)))
      else (cartSummary cart mode).subtotal * (15/100)) ∧
    (cartSummary cart mode).total =
      (if mode = .inclusive then (cartSummary cart mode).subtotal
      else (cartSummary cart mode).subtotal + (cartSummary cart mode).tax) := by
  refine ⟨?_, ?_, ?_, ?_⟩ <;>
    simp [cartSummary, foldl_add_map_sum]

/-! ### C8 — branch switch invalidation -/

/-- C8 counterexample: the claim quantifies over every branch value, but
`setSelectedBranch` only clears the last-sold-price cache when the new
branch is truthy; passing `null` leaves a non-empty cache intact. -/
theorem setSelectedBranch_null_keeps_cache :
    (setSelectedBranch stateWithLSP none).lastSoldPrices ("P1_B1_PCS") = some lsp0 ∧
    (setSelectedBranch stateWithLSP none).selectedBranch = none := by
  constructor <;> rfl

/-- C8 (amended): switching to any non-null branch clears the entire
last-sold-price cache; switching to `null` leaves the cache unchanged. -/
theorem setSelectedBranch_clears_cache (s : POSState) (b : Branch) :
    (setSelectedBranch s (some b)).lastSoldPrices = (fun _ => none) ∧
    (∀ s' : POSState, (setSelectedBranch s' none).lastSoldPrices = s'.lastSoldPrices) := by
  exact ⟨rfl, fun _ => rfl⟩

/-! ### C5 — staleness threshold -/

/-- C5 counterexample: at age exactly `maxAge` (`now - lastSync = T`),
`isStale` is false (`>` is strict), so a read with a non-empty mirror
serves the mirror and performs no blocking network fetch, while the claim
demands a fetch for every age `≥ T`. -/
theorem readCollection_boundary_serves_mirror :
    (1100 : ℤ) - 100 ≥ 1000 ∧
    readCollection [prod0] (some 100) 1100 1000 false (.ok [prodQ]) =
      ⟨.ok [prod0], false, none, false, false⟩ := by
  constructor
  · decide
  · rfl

/-- C5 (amended): a read with a non-empty mirror and age at most `T`
(strictly: `isStale` false, i.e. `now - lastSync ≤ maxAge`) returns the
mirror without a blocking network fetch, kicking off a background refresh
exactly when background sync is enabled; a read with an empty mirror or
age strictly greater than `T` fetches from the network, writes the result
to the mirror and returns it.  For a real (nonzero) sync timestamp,
staleness is exactly `now - lastSync > maxAge`. -/
theorem readCollection_staleness (mirror : List Product) (lastSync : Option ℤ)
    (now maxAge : ℤ) (bg : Bool) (items : List Product) :
    (mirror ≠ [] → isStale lastSync now maxAge = false →
      readCollection mirror lastSync now maxAge bg (.ok items) =
        ⟨.ok mirror, false, none, false, bg⟩) ∧
    (mirror = [] ∨ isStale lastSync now maxAge = true →
      readCollection mirror lastSync now maxAge bg (.ok items) =
        ⟨.ok items, true, some items, false, false⟩) ∧
    (∀ t : ℤ, t ≠ 0 →
      (isStale (some t) now maxAge = true ↔ now - t > maxAge)) := by
  refine ⟨?_, ?_, ?_⟩
  · intro hne hfresh
    simp [readCollection, hne, hfresh]
  · intro h
    have hcond : ¬(mirror ≠ [] ∧ isStale lastSync now maxAge = false) := by
      rcases h with h | h
      · simp [h]
      · simp [h]
    simp [readCollection, hcond]
  · intro t ht
    simp [isStale, ht]

/-- C5 witness: both directions of the amended staleness behaviour at
concrete inputs (fresh read at age `500 < 1000`, stale read at age
`1001 > 1000`). -/
theorem readCollection_staleness_witness :
    readCollection [prod0] (some 100) 600 1000 true (.ok [prodQ]) =
      ⟨.ok [prod0], false, none, false, true⟩ ∧
    readCollection [prod0] (some 100) 1101 1000 true (.ok [prodQ]) =
      ⟨.ok [prodQ], true, some [prodQ], false, false⟩ := by
  constructor
  · exact (readCollection_staleness [prod0] (some 100) 600 1000 true [prodQ]).1
      (by simp [prod0]) (by decide)
  · exact (readCollection_staleness [prod0] (some 100) 1101 1000 true [prodQ]).2.1
      (Or.inr (by decide))

/-! ### C6 — fallback on network failure -/

/-- C6: when the network fetch is performed and fails, a non-empty mirror
is returned with the non-fatal offline warning and nothing is raised, an
empty mirror propagates the error; and over all inputs a read raises if
and only if the network fetch fails and the mirror is empty. -/
theorem readCollection_failure (mirror : List Product) (lastSync : Option ℤ)
    (now maxAge : ℤ) (bg : Bool) :
    (mirror = [] ∨ isStale lastSync now maxAge = true → mirror ≠ [] →
      readCollection mirror lastSync now maxAge bg (.error ()) =
        ⟨.ok mirror, true, none, true, false⟩) ∧
    (mirror = [] →
      readCollection mirror lastSync now maxAge bg (.error ()) =
        ⟨.error (), true, none, false, false⟩) ∧
    (∀ net : Except Unit (List Product),
      isErr (readCollection mirror lastSync now maxAge bg net).result = true ↔
        net = .error () ∧ mirror = []) := by
  refine ⟨?_, ?_, ?_⟩
  · intro h hne
    have hstale : isStale lastSync now maxAge = true := by
      rcases h with h | h
      · exact absurd h hne
      · exact h
    simp [readCollection, hne, hstale]
  · intro h
    simp [readCollection, h]
  · intro net
    by_cases hne : mirror = []
    · cases net with
      | ok items => simp [readCollection, hne, isErr]
      | error e => simp [readCollection, hne, isErr]
    · by_cases hst : isStale lastSync now maxAge = false
      · simp [readCollection, hne, hst, isErr]
      · have hstale : isStale lastSync now maxAge = true := by
          simpa using hst
        cases net with
        | ok items => simp [readCollection, hne, hstale, isErr]
        | error e => simp [readCollection, hne, hstale, isErr]

/-- C6 witness: the fallback and the propagation at concrete inputs
(stale non-empty mirror falls back with a warning; empty mirror
propagates the failure). -/
theorem readCollection_failure_witness :
    readCollection [prod0] (some 100) 2000 1000 true (.error ()) =
      ⟨.ok [prod0], true, none, true, false⟩ ∧
    readCollection [] (some 100) 2000 1000 true (.error ()) =
      ⟨.error (), true, none, false, false⟩ := by
  constructor
  · exact (readCollection_failure [prod0] (some 100) 2000 1000 true).1
      (Or.inr (by decide)) (by simp [prod0])
  · exact (readCollection_failure [] (some 100) 2000 1000 true).2.1 rfl

/-! ### C3 — cart merge law -/

/-- A line whose product id or unit differs never matches the merge key. -/
theorem matchesLine_false_of_key {i : CartItem} {pid u : String}
    (cp : Option ℚ) (h : ¬(i.id = pid ∧ i.unit = u)) :
    matchesLine i pid u cp = false := by
  unfold matchesLine
  by_cases h1 : i.id = pid
  · by_cases h2 : i.unit = u
    · exact absurd ⟨h1, h2⟩ h
    · simp [h2]
  · simp [h1]

/-- No line of a cart without the `(pid, u)` key matches the merge key. -/
theorem any_matches_false (cp : Option ℚ) {pid u : String} :
    ∀ cart : List CartItem, (∀ i ∈ cart, ¬(i.id = pid ∧ i.unit = u)) →
      cart.any (fun item => matchesLine item pid u cp) = false := by
  intro cart h
  rw [List.any_eq_false]
  intro i hi
  simp [matchesLine_false_of_key cp (h i hi)]

/-- The merge map leaves a cart without the `(pid, u)` key untouched. -/
theorem map_merge_id (cp : Option ℚ) (q : ℚ) {pid u : String} :
    ∀ cart : List CartItem, (∀ i ∈ cart, ¬(i.id = pid ∧ i.unit = u)) →
      cart.map (fun item => if matchesLine item pid u cp then
        { item with qty := item.qty + q } else item) = cart := by
  intro cart
  induction cart with
  | nil => intro _; rfl
  | cons x xs ih =>
    intro h
    have hx := matchesLine_false_of_key cp (h x (by simp))
    simp [hx, ih (fun i hi => h i (by simp [hi]))]

/-- Filtering by the `(pid, u)` key of a cart without it gives `[]`. -/
theorem filter_key_nil {pid u : String} :
    ∀ cart : List CartItem, (∀ i ∈ cart, ¬(i.id = pid ∧ i.unit = u)) →
      cart.filter (fun i => decide (i.id = pid ∧ i.unit = u)) = [] := by
  intro cart h
  rw [List.filter_eq_nil_iff]
  intro a ha
  simpa using h a ha

/-- A freshly created line matches a repeat addition with the same custom
price (also when both are absent, and also for the falsy custom price
`0`). -/
theorem matchesLine_newItem (s : POSState) (p : Product) (q : ℚ) (u : String)
    (cp : Option ℚ) : matchesLine (newItemDef s p q u cp) p.id u cp = true := by
  cases cp with
  | none => simp [matchesLine, newItemDef, jsTruthy]
  | some c =>
    by_cases hc : c = 0 <;> simp [matchesLine, newItemDef, jsTruthy, hc]

/-- A freshly created custom-priced line does not match an addition with a
different custom price. -/
theorem matchesLine_newItem_ne (s : POSState) (p : Product) (q : ℚ) (u : String)
    {c1 c2 : ℚ} (h : c1 ≠ c2) :
    matchesLine (newItemDef s p q u (some c1)) p.id u (some c2) = false := by
  by_cases h2 : c2 = 0
  · have h1 : c1 ≠ 0 := by rw [h2] at h; exact h
    simp [matchesLine, newItemDef, jsTruthy, h2, h1]
  · simp [matchesLine, newItemDef, jsTruthy, h2, h]

/-- `addToCart` with no matching line appends the freshly created line. -/
theorem addToCart_no_match (s : POSState) (p : Product) (q : ℚ) (u : String)
    (cp : Option ℚ)
    (h : s.cart.any (fun item => matchesLine item p.id u cp) = false) :
    (addToCart s p q u cp).1 =
      { s with cart := s.cart ++ [newItemDef s p q u cp] } := by
  unfold addToCart
  simp [h]

/-- `addToCart` with a matching line bumps quantities via the merge map. -/
theorem addToCart_match (s : POSState) (p : Product) (q : ℚ) (u : String)
    (cp : Option ℚ)
    (h : s.cart.any (fun item => matchesLine item p.id u cp) = true) :
    (addToCart s p q u cp).1 =
      { s with cart := s.cart.map (fun item =>
        if matchesLine item p.id u cp then { item with qty := item.qty + q }
        else item) } := by
  unfold addToCart
  simp [h]

/-- C3: starting from a cart with no `(p, u)` line, two plain additions
merge into exactly one `(p, u)` line with `qty = q1 + q2` whose price is
the one computed at the first addition; two additions with the identical
custom price merge the same way; two additions with different custom
prices produce exactly two distinct `(p, u)` lines carrying `q1` and `q2`
respectively. -/
theorem addToCart_merge_law (s : POSState) (p : Product) (u : String)
    (q1 q2 c c1 c2 : ℚ)
    (hno : ∀ i ∈ s.cart, ¬(i.id = p.id ∧ i.unit = u)) (hne : c1 ≠ c2) :
    ((addToCart (addToCart s p q1 u none).1 p q2 u none).1.cart.filter
        (fun i => decide (i.id = p.id ∧ i.unit = u)) =
      [{ newItemDef s p q1 u none with qty := q1 + q2 }] ∧
      ({ newItemDef s p q1 u none with qty := q1 + q2 } : CartItem).price =
        (computedPrice s p u).price) ∧
    ((addToCart (addToCart s p q1 u (some c)).1 p q2 u (some c)).1.cart.filter
        (fun i => decide (i.id = p.id ∧ i.unit = u)) =
      [{ newItemDef s p q1 u (some c) with qty := q1 + q2 }]) ∧
    ((addToCart (addToCart s p q1 u (some c1)).1 p q2 u (some c2)).1.cart.filter
        (fun i => decide (i.id = p.id ∧ i.unit = u)) =
      [newItemDef s p q1 u (some c1),
       newItemDef (addToCart s p q1 u (some c1)).1 p q2 u (some c2)] ∧
      (newItemDef s p q1 u (some c1)).qty = q1 ∧
      (newItemDef (addToCart s p q1 u (some c1)).1 p q2 u (some c2)).qty = q2) := by
  refine ⟨⟨?_, ?_⟩, ?_, ?_⟩
  · rw [addToCart_no_match s p q1 u none (any_matches_false none s.cart hno)]
    rw [addToCart_match _ p q2 u none
      (by simp [List.any_append, matchesLine_newItem,
        any_matches_false none s.cart hno])]
    simp only [List.map_append, List.filter_append,
      map_merge_id none q2 s.cart hno, filter_key_nil s.cart hno,
      List.map_cons, List.map_nil, matchesLine_newItem, if_pos,
      List.filter_cons, List.nil_append]
    simp [newItemDef]
  · simp [newItemDef, finalPriceDef, jsTruthy]
  · rw [addToCart_no_match s p q1 u (some c) (any_matches_false (some c) s.cart hno)]
    rw [addToCart_match _ p q2 u (some c)
      (by simp [List.any_append, matchesLine_newItem,
        any_matches_false (some c) s.cart hno])]
    simp only [List.map_append, List.filter_append,
      map_merge_id (some c) q2 s.cart hno, filter_key_nil s.cart hno,
      List.map_cons, List.map_nil, matchesLine_newItem, if_pos,
      List.filter_cons, List.nil_append]
    simp [newItemDef]
  · refine ⟨?_, rfl, rfl⟩
    rw [addToCart_no_match s p q1 u (some c1) (any_matches_false (some c1) s.cart hno)]
    rw [addToCart_no_match _ p q2 u (some c2)
      (by simp [List.any_append, matchesLine_newItem_ne s p q1 u hne,
        any_matches_false (some c2) s.cart hno])]
    simp only [List.filter_append, filter_key_nil s.cart hno,
      List.filter_cons, List.filter_nil, List.nil_append]
    simp [newItemDef]

/-- C3 witness: the merge law applied to the fresh state with concrete
quantities `1`, `2` and custom prices `5`, `3 ≠ 4`. -/
theorem addToCart_merge_law_witness :
    (∀ i ∈ posState0.cart, ¬(i.id = prod0.id ∧ i.unit = "PCS")) ∧
    ((addToCart (addToCart posState0 prod0 1 "PCS" none).1 prod0 2 "PCS" none).1.cart.filter
        (fun i => decide (i.id = prod0.id ∧ i.unit = "PCS")) =
      [{ newItemDef posState0 prod0 1 "PCS" none with qty := 1 + 2 }]) := by
  refine ⟨by simp [posState0], ?_⟩
  exact ((addToCart_merge_law posState0 prod0 ("PCS") 1 2 5 3 4
    (by simp [posState0]) (by norm_num)).1).1

/-! ### C10 — custom price `0` behaves like no custom price -/

/-- Normalisation collapsing a falsy `customPrice` to `none`; the merge
key only ever inspects `customPrice` through truthiness or equality with
a truthy value, so behaviour is invariant under this normalisation. -/
def normCP (i : CartItem) : CartItem :=
  { i with customPrice := if jsTruthy i.customPrice then i.customPrice else none }

/-- The merge key treats custom price `0` exactly like no custom price. -/
theorem matchesLine_zero (i : CartItem) (pid u : String) :
    matchesLine i pid u (some 0) = matchesLine i pid u none := by
  simp [matchesLine, jsTruthy]

/-- Lines created with custom price `0` and with no custom price agree up
to normalisation of the falsy `customPrice` field. -/
theorem normCP_newItem_zero (s : POSState) (p : Product) (q : ℚ) (u : String) :
    normCP (newItemDef s p q u (some 0)) = normCP (newItemDef s p q u none) := by
  simp [normCP, newItemDef, finalPriceDef, jsTruthy]

/-- C10: adding with an explicit custom price of `0` issues no save
request, produces (up to normalisation of the stored falsy `customPrice`
field) the same cart as adding with no custom price — in particular it
merges with an existing plain line — and when it creates a new line, that
line's price is the strategy-computed price, not `0`. -/
theorem addToCart_zero_custom_like_none (s : POSState) (p : Product)
    (qty : ℚ) (u : String) :
    (addToCart s p qty u (some 0)).2 = none ∧
    ((addToCart s p qty u (some 0)).1.cart.map normCP =
      (addToCart s p qty u none).1.cart.map normCP) ∧
    (s.cart.any (fun item => matchesLine item p.id u none) = false →
      (addToCart s p qty u (some 0)).1.cart =
        s.cart ++ [newItemDef s p qty u (some 0)] ∧
      (newItemDef s p qty u (some 0)).price = (computedPrice s p u).price) := by
  refine ⟨addToCart_save_eq_none s p qty u (some 0), ?_, ?_⟩
  · unfold addToCart
    simp only [matchesLine_zero]
    by_cases h : s.cart.any (fun item => matchesLine item p.id u none) = true
    · simp [h]
    · have h' : s.cart.any (fun item => matchesLine item p.id u none) = false := by
        simpa using h
      simp [h', normCP_newItem_zero]
  · intro h
    have h0 : s.cart.any (fun item => matchesLine item p.id u (some 0)) = false := by
      simpa only [matchesLine_zero] using h
    constructor
    · rw [addToCart_no_match s p qty u (some 0) h0]
    · simp [newItemDef, finalPriceDef, jsTruthy]

/-- C10 witness: custom price `0` on the fresh state creates a line priced
by the default strategy calculation (`10`, not `0`) and issues no save. -/
theorem addToCart_zero_custom_witness :
    posState0.cart.any (fun item => matchesLine item prod0.id ("PCS") none) = false ∧
    (addToCart posState0 prod0 1 "PCS" (some 0)).1.cart =
      posState0.cart ++ [newItemDef posState0 prod0 1 "PCS" (some 0)] ∧
    (newItemDef posState0 prod0 1 "PCS" (some 0)).price =
      (computedPrice posState0 prod0 ("PCS")).price := by
  refine ⟨rfl, ?_, ?_⟩
  · exact ((addToCart_zero_custom_like_none posState0 prod0 1 "PCS").2.2 rfl).1
  · exact ((addToCart_zero_custom_like_none posState0 prod0 1 "PCS").2.2 rfl).2

/-! ### C2 — query engine vs. reference algorithm -/

/-- The scan loop with early exit collects exactly the first
`limit2 - acc.length` positive-score entries (in scan order) beyond the
accumulator, as long as the accumulator is still below the bound. -/
theorem scanLoop_eq {α : Type} (lq : List Char) (qws : List (List Char))
    (limit2 : ℕ) :
    ∀ (entries : List (SearchEntry α)) (acc : List (α × ℚ)),
      acc.length < limit2 →
      scanLoop lq qws limit2 entries acc =
        acc ++ ((entries.map (fun e => (e.item, entryScore e lq qws))).filter
          (fun r => decide (0 < r.2))).take (limit2 - acc.length) := by
  intro entries
  induction entries with
  | nil => intro acc h; simp [scanLoop]
  | cons e rest ih =>
    intro acc h
    by_cases hs : 0 < entryScore e lq qws
    · by_cases hlim : limit2 ≤ acc.length + 1
      · have h1 : limit2 - acc.length = 1 := by omega
        have hcond : limit2 ≤ (acc ++ [(e.item, entryScore e lq qws)]).length := by
          simp; omega
        simp only [scanLoop, hs, if_pos, if_true, hcond, List.map_cons,
          List.filter_cons, decide_eq_true_eq, h1, List.take_succ_cons,
          List.take_zero]
      · have hcond : ¬ limit2 ≤ (acc ++ [(e.item, entryScore e lq qws)]).length := by
          simp; omega
        have hlt : (acc ++ [(e.item, entryScore e lq qws)]).length < limit2 := by
          simp; omega
        have h2 : limit2 - acc.length = (limit2 - (acc.length + 1)) + 1 := by omega
        simp only [scanLoop, hs, if_pos, if_true, hcond, if_false]
        rw [ih _ hlt]
        simp only [List.map_cons, List.filter_cons, decide_eq_true_eq]
        rw [if_pos hs, h2, List.take_succ_cons]
        simp
    · have hcond : ¬ limit2 ≤ acc.length := by omega
      simp only [scanLoop, hs, if_neg, if_false, hcond]
      rw [ih _ h]
      simp only [List.map_cons, List.filter_cons, decide_eq_true_eq]
      rw [if_neg hs]

/-- C2: for every index and every non-blank query, the query engine
returns exactly the output of the reference algorithm worded in the
specification (lowercase and split the query, score entries in order,
keep positive scores, stop at `2 × limit` candidates, sort descending,
return the top `limit` records). -/
theorem searchIndex_matches_reference {α : Type} (index : List (SearchEntry α))
    (query : List Char) (limit : ℕ) (hq : isBlank query = false) :
    searchIndexFn index query limit = searchIndexSpec index query limit := by
  unfold searchIndexFn searchIndexSpec
  rw [hq]
  by_cases hl : limit = 0
  · subst hl
    simp
  · have hpos : (0 : ℕ) < limit * 2 := by omega
    have hlen : ([] : List (α × ℚ)).length < limit * 2 := by simpa using hpos
    simp only [Bool.false_eq_true, if_false]
    rw [scanLoop_eq (query.map Char.toLower) (splitWs (query.map Char.toLower))
      (limit * 2) index [] hlen]
    simp [Nat.mul_comm]

/-- The specification's own two-record example index (`Red Apple` /
`Green Apple`), with items abbreviated to numeric tags. -/
def appleIndex : List (SearchEntry ℕ) :=
  [⟨1, ("red apple a1").data, [("red").data, ("apple").data, ("a1").data]⟩,
   ⟨2, ("green apple a2").data, [("green").data, ("apple").data, ("a2").data]⟩]

/-- C2 witness: the engine and the reference algorithm agree on the
concrete query `apple` with limit `10` over the example index. -/
theorem searchIndex_matches_reference_witness :
    isBlank ("apple").data = false ∧
    searchIndexFn appleIndex ("apple").data 10 =
      searchIndexSpec appleIndex ("apple").data 10 := by
  exact ⟨by decide,
    searchIndex_matches_reference appleIndex ("apple").data 10 (by decide)⟩

/-! ### C7 — bulk last-sold-price fetch status lifecycle -/

/-- Setting statuses for a list of ids leaves other ids untouched. -/
theorem setAllStatus_not_mem {v : FetchStatus} {i : String} :
    ∀ (ids : List String) (σ : String → Option FetchStatus), i ∉ ids →
      setAllStatus σ ids v i = σ i := by
  intro ids
  induction ids with
  | nil => intro σ _; rfl
  | cons j rest ih =>
    intro σ h
    have hij : i ≠ j := fun e => h (by simp [e])
    have hrest : i ∉ rest := fun m => h (by simp [m])
    show setAllStatus (statusSet σ j v) rest v i = σ i
    rw [ih (statusSet σ j v) hrest]
    simp [statusSet, hij]

/-- Setting statuses for a list of ids hits every member. -/
theorem setAllStatus_mem {v : FetchStatus} {i : String} :
    ∀ (ids : List String) (σ : String → Option FetchStatus), i ∈ ids →
      setAllStatus σ ids v i = some v := by
  intro ids
  induction ids with
  | nil => intro σ h; cases h
  | cons j rest ih =>
    intro σ h
    show setAllStatus (statusSet σ j v) rest v i = some v
    by_cases hr : i ∈ rest
    · exact ih _ hr
    · have hij : i = j := by
        rcases List.mem_cons.mp h with h | h
        · exact h
        · exact absurd h hr
      rw [setAllStatus_not_mem rest (statusSet σ j v) hr]
      simp [statusSet, hij]

/-- The status component of the per-row success fold equals setting every
returned row's product id to `loaded`, in order. -/
theorem foldl_applyRow_status :
    ∀ (rows : List PriceRow) (st : POSState),
      (rows.foldl applyRow st).priceFetchingStatus =
        setAllStatus st.priceFetchingStatus (rows.map (·.product_id))
          FetchStatus.loaded := by
  intro rows
  induction rows with
  | nil => intro st; rfl
  | cons r rest ih =>
    intro st
    rw [List.foldl_cons, ih (applyRow st r)]
    rfl

/-- C7 (amended): in every cycle that actually runs, each requested id is
set to `loading` before the network call, and afterwards it is resolved —
never left `loading`, never unset — to `loaded` exactly when some returned
price row carries its id (on a failed request every requested id is set to
`error`); the cycle's log contains at least one resolution write for every
requested id (one per returned row for that id, plus the not-found or
failure `error` write), but not necessarily exactly one. -/
theorem fetchCycle_resolves_all (s : POSState) (filtered : List Product)
    (response : Except Unit (List PriceRow)) (i : String)
    (hs : s.pricingStrategy = .lastSoldPrice) (hb : s.selectedBranch ≠ none)
    (hf : filtered ≠ []) (hi : i ∈ (filtered.take 60).map (·.id)) :
    setAllStatus s.priceFetchingStatus ((filtered.take 60).map (·.id))
        FetchStatus.loading i = some FetchStatus.loading ∧
    (fetchCycle s filtered response).1.priceFetchingStatus i ≠
      some FetchStatus.loading ∧
    (fetchCycle s filtered response).1.priceFetchingStatus i ≠ none ∧
    (∀ rows, response = .ok rows →
      ((fetchCycle s filtered response).1.priceFetchingStatus i =
          some FetchStatus.loaded ↔ i ∈ rows.map (·.product_id))) ∧
    (∀ er, response = .error er →
      (fetchCycle s filtered response).1.priceFetchingStatus i =
        some FetchStatus.error) ∧
    1 ≤ resolvedCount (fetchCycle s filtered response).2 i := by
  have hguard : ¬(s.pricingStrategy ≠ Strategy.lastSoldPrice ∨
      s.selectedBranch = none ∨ filtered = []) := by
    push_neg
    exact ⟨by simp [hs], hb, hf⟩
  refine ⟨setAllStatus_mem _ _ hi, ?_⟩
  cases response with
  | error er =>
    have hstat : (fetchCycle s filtered (.error er)).1.priceFetchingStatus i =
        some FetchStatus.error := by
      unfold fetchCycle
      rw [if_neg hguard]
      exact setAllStatus_mem _ _ hi
    have hlog : (fetchCycle s filtered (.error er)).2 =
        ((filtered.take 60).map (·.id)).map (fun j => (j, FetchStatus.loading)) ++
          ((filtered.take 60).map (·.id)).map (fun j => (j, FetchStatus.error)) := by
      unfold fetchCycle
      rw [if_neg hguard]
    refine ⟨by simp [hstat], by simp [hstat], ?_, ?_, ?_⟩
    · intro rows h
      cases h
    · intro er' _
      exact hstat
    · rw [hlog]
      have hmem : ((i, FetchStatus.error)) ∈
          (((filtered.take 60).map (·.id)).map
            (fun j => (j, FetchStatus.error))).filter
            (fun e => decide (e.1 = i) && decide (e.2 ≠ FetchStatus.loading)) := by
        rw [List.mem_filter]
        exact ⟨List.mem_map.mpr ⟨i, hi, rfl⟩, by simp⟩
      have hpos := List.length_pos.mpr (List.ne_nil_of_mem hmem)
      simp only [resolvedCount, List.filter_append, List.length_append]
      omega
  | ok rows =>
    have hstat : (fetchCycle s filtered (.ok rows)).1.priceFetchingStatus =
        setAllStatus
          (setAllStatus (setAllStatus s.priceFetchingStatus
              ((filtered.take 60).map (·.id)) FetchStatus.loading)
            (rows.map (·.product_id)) FetchStatus.loaded)
          (((filtered.take 60).map (·.id)).filter
            (fun j => decide (j ∉ rows.map (·.product_id)))) FetchStatus.error := by
      unfold fetchCycle
      rw [if_neg hguard]
      show setAllStatus (rows.foldl applyRow _).priceFetchingStatus _ _ = _
      rw [foldl_applyRow_status]
    have hlog : (fetchCycle s filtered (.ok rows)).2 =
        ((filtered.take 60).map (·.id)).map (fun j => (j, FetchStatus.loading)) ++
          rows.map (fun r => (r.product_id, FetchStatus.loaded)) ++
          (((filtered.take 60).map (·.id)).filter
            (fun j => decide (j ∉ rows.map (·.product_id)))).map
            (fun j => (j, FetchStatus.error)) := by
      unfold fetchCycle
      rw [if_neg hguard]
    by_cases hfound : i ∈ rows.map (·.product_id)
    · have hnm : i ∉ ((filtered.take 60).map (·.id)).filter
          (fun j => decide (j ∉ rows.map (·.product_id))) := by
        intro hmem
        have h2 := (List.mem_filter.mp hmem).2
        simp at h2
        rcases List.mem_map.mp hfound with ⟨r, hr, hrid⟩
        exact h2 r hr hrid
      have hsi : (fetchCycle s filtered (.ok rows)).1.priceFetchingStatus i =
          some FetchStatus.loaded := by
        rw [hstat, setAllStatus_not_mem _ _ hnm]
        exact setAllStatus_mem _ _ hfound
      refine ⟨by simp [hsi], by simp [hsi], ?_, ?_, ?_⟩
      · intro rows' h
        cases h
        simp [hsi, hfound]
      · intro er h
        cases h
      · rw [hlog]
        rcases List.mem_map.mp hfound with ⟨r, hr, hrid⟩
        have hmem : ((i, FetchStatus.loaded)) ∈
            (rows.map (fun r => (r.product_id, FetchStatus.loaded))).filter
              (fun e => decide (e.1 = i) && decide (e.2 ≠ FetchStatus.loading)) := by
          rw [List.mem_filter]
          exact ⟨List.mem_map.mpr ⟨r, hr, by rw [hrid]⟩, by simp⟩
        have hpos := List.length_pos.mpr (List.ne_nil_of_mem hmem)
        simp only [resolvedCount, List.filter_append, List.length_append]
        omega
    · have hm : i ∈ ((filtered.take 60).map (·.id)).filter
          (fun j => decide (j ∉ rows.map (·.product_id))) := by
        rw [List.mem_filter]
        exact ⟨hi, by simpa using hfound⟩
      have hsi : (fetchCycle s filtered (.ok rows)).1.priceFetchingStatus i =
          some FetchStatus.error := by
        rw [hstat]
        exact setAllStatus_mem _ _ hm
      refine ⟨by simp [hsi], by simp [hsi], ?_, ?_, ?_⟩
      · intro rows' h
        cases h
        simp [hsi, hfound]
      · intro er h
        cases h
      · rw [hlog]
        have hmem : ((i, FetchStatus.error)) ∈
            ((((filtered.take 60).map (·.id)).filter
              (fun j => decide (j ∉ rows.map (·.product_id)))).map
              (fun j => (j, FetchStatus.error))).filter
              (fun e => decide (e.1 = i) && decide (e.2 ≠ FetchStatus.loading)) := by
          rw [List.mem_filter]
          exact ⟨List.mem_map.mpr ⟨i, hm, rfl⟩, by simp⟩
        have hpos := List.length_pos.mpr (List.ne_nil_of_mem hmem)
        simp only [resolvedCount, List.filter_append, List.length_append]
        omega

/-- A returned price row for `(P1, B1, PCS)`. -/
def rowPCS : PriceRow := ⟨"P1", "B1", "PCS", 10, "2024-01-02", .exclusive⟩

/-- A returned price row for `(P1, B1, CTN)` — same product, second unit. -/
def rowCTN : PriceRow := ⟨"P1", "B1", "CTN", 100, "2024-01-02", .exclusive⟩

/-- C7 counterexample: when the response carries two rows for the same
product (one per unit), the product's resolution status is written twice
(`loaded` once per row), so the status is not set exactly once per cycle
even though the final state is correctly `loaded`. -/
theorem fetchCycle_duplicate_rows_double_resolution :
    resolvedCount (fetchCycle stateLS [prod0] (.ok [rowPCS, rowCTN])).2 ("P1") = 2 ∧
    (fetchCycle stateLS [prod0] (.ok [rowPCS, rowCTN])).1.priceFetchingStatus ("P1") =
      some FetchStatus.loaded := by
  constructor
  · decide
  · decide

/-- C7 witness: the resolution lifecycle applied to a concrete running
cycle (strategy `lastSoldPrice`, branch selected, one visible product,
one returned row). -/
theorem fetchCycle_resolves_all_witness :
    (stateLS.pricingStrategy = Strategy.lastSoldPrice ∧
      stateLS.selectedBranch ≠ none ∧ ([prod0] : List Product) ≠ [] ∧
      ("P1") ∈ (([prod0].take 60).map (·.id))) ∧
    (fetchCycle stateLS [prod0] (.ok [rowPCS])).1.priceFetchingStatus ("P1") ≠
      some FetchStatus.loading := by
  refine ⟨⟨rfl, by simp [stateLS], by simp, by simp [prod0]⟩, ?_⟩
  exact (fetchCycle_resolves_all stateLS [prod0] (.ok [rowPCS]) ("P1") rfl
    (by simp [stateLS]) (by simp) (by simp [prod0])).2.1

/-! ### C9 — idempotent sync of the mirror store -/

/-- `byId` on a cons, split on the head's key. -/
theorem byId_cons (s : StoredProduct) (st : List StoredProduct) (i : String) :
    byId (s :: st) i = if s.product.id = i then some s else byId st i := by
  by_cases h : s.product.id = i
  · simp [byId, List.find?, h]
  · simp [byId, List.find?, h]

/-- `put` behaves as a pointwise map update on `byId`. -/
theorem byId_putRecord (r : StoredProduct) (i : String) :
    ∀ st : List StoredProduct,
      byId (putRecord st r) i =
        if i = r.product.id then some r else byId st i := by
  intro st
  induction st with
  | nil =>
    by_cases h : i = r.product.id
    · subst h
      simp [putRecord, byId, List.find?]
    · have h' : ¬ r.product.id = i := fun e => h e.symm
      simp [putRecord, byId, List.find?, h, h']
  | cons s st ih =>
    by_cases hsr : s.product.id = r.product.id
    · by_cases h : i = r.product.id
      · subst h
        simp [putRecord, hsr, byId, List.find?]
      · have h' : ¬ r.product.id = i := fun e => h e.symm
        have hs' : ¬ s.product.id = i := by rw [hsr]; exact h'
        simp only [putRecord, hsr, if_pos, if_true]
        rw [byId_cons, byId_cons, if_neg h', if_neg hs', if_neg h]
    · simp only [putRecord, hsr, if_false, ite_false]
      rw [byId_cons, byId_cons, ih]
      by_cases hsi : s.product.id = i
      · have h : ¬ i = r.product.id := fun e => hsr (by rw [hsi, e])
        simp [hsi, h]
      · simp [hsi]

/-- Every id in a `put` result comes from the store or is the new
record's id. -/
theorem mem_ids_putRecord {x : String} (r : StoredProduct) :
    ∀ st : List StoredProduct, x ∈ (putRecord st r).map (·.product.id) →
      x ∈ st.map (·.product.id) ∨ x = r.product.id := by
  intro st
  induction st with
  | nil =>
    intro h
    simp [putRecord] at h
    right; exact h
  | cons s st ih =>
    intro h
    by_cases hsr : s.product.id = r.product.id
    · simp only [putRecord, hsr, if_pos, if_true, List.map_cons, List.mem_cons] at h
      rcases h with h | h
      · right; exact h
      · left
        rw [List.map_cons, List.mem_cons]
        right; exact h
    · simp only [putRecord, hsr, if_false, ite_false, List.map_cons,
        List.mem_cons] at h
      rcases h with h | h
      · left
        rw [List.map_cons, List.mem_cons]
        left; exact h
      · rcases ih h with h | h
        · left
          rw [List.map_cons, List.mem_cons]
          right; exact h
        · right; exact h

/-- `put` preserves distinctness of stored ids. -/
theorem nodup_ids_putRecord (r : StoredProduct) :
    ∀ st : List StoredProduct, (st.map (·.product.id)).Nodup →
      ((putRecord st r).map (·.product.id)).Nodup := by
  intro st
  induction st with
  | nil => intro _; simp [putRecord]
  | cons s st ih =>
    intro h
    rw [List.map_cons, List.nodup_cons] at h
    by_cases hsr : s.product.id = r.product.id
    · simp only [putRecord, hsr, if_pos, if_true, List.map_cons, List.nodup_cons]
      exact ⟨by rw [← hsr]; exact h.1, h.2⟩
    · simp only [putRecord, hsr, if_false, ite_false, List.map_cons,
        List.nodup_cons]
      refine ⟨?_, ih h.2⟩
      intro hmem
      rcases mem_ids_putRecord r st hmem with hm | hm
      · exact h.1 hm
      · exact hsr hm

/-- Folding `put` over a batch preserves distinctness of stored ids. -/
theorem nodup_ids_foldl_put :
    ∀ (ys : List StoredProduct) (st : List StoredProduct),
      (st.map (·.product.id)).Nodup →
      ((ys.foldl putRecord st).map (·.product.id)).Nodup := by
  intro ys
  induction ys with
  | nil => intro st h; exact h
  | cons y ys ih =>
    intro st h
    rw [List.foldl_cons]
    exact ih _ (nodup_ids_putRecord y st h)

/-- Every id in a folded `put` result comes from the store or the batch. -/
theorem mem_ids_foldl_put {x : String} :
    ∀ (ys : List StoredProduct) (st : List StoredProduct),
      x ∈ ((ys.foldl putRecord st).map (·.product.id)) →
      x ∈ st.map (·.product.id) ∨ x ∈ ys.map (·.product.id) := by
  intro ys
  induction ys with
  | nil => intro st h; left; exact h
  | cons y ys ih =>
    intro st h
    rw [List.foldl_cons] at h
    rcases ih _ h with h | h
    · rcases mem_ids_putRecord y st h with h | h
      · left; exact h
      · right
        rw [List.map_cons, List.mem_cons]
        left; exact h
    · right
      rw [List.map_cons, List.mem_cons]
      right; exact h

/-- `byId` after folding `put` over a batch with distinct ids: the first
batch record with the id wins, else the store's record survives. -/
theorem byId_foldl_put :
    ∀ ys : List StoredProduct, (ys.map (·.product.id)).Nodup →
      ∀ (st : List StoredProduct) (i : String),
        byId (ys.foldl putRecord st) i =
          match ys.find? (fun sp => decide (sp.product.id = i)) with
          | some v => some v
          | none => byId st i := by
  intro ys
  induction ys with
  | nil => intro _ st i; rfl
  | cons y ys ih =>
    intro hN st i
    have hN2 := hN
    rw [List.map_cons, List.nodup_cons] at hN2
    rw [List.foldl_cons, ih hN2.2 (putRecord st y) i]
    by_cases hyi : y.product.id = i
    · have hni : i ∉ ys.map (·.product.id) := by
        rw [← hyi]; exact hN2.1
      have hfind : ys.find? (fun sp => decide (sp.product.id = i)) = none := by
        rw [List.find?_eq_none]
        intro sp hsp
        simp only [decide_eq_true_eq]
        intro he
        exact hni (by rw [← he]; exact List.mem_map_of_mem _ hsp)
      rw [hfind, byId_putRecord]
      subst hyi
      simp [List.find?]
    · cases hf : ys.find? (fun sp => decide (sp.product.id = i)) with
      | some v =>
        simp [List.find?, hyi, hf]
      | none =>
        rw [byId_putRecord]
        have h' : ¬ i = y.product.id := fun e => hyi e.symm
        simp [List.find?, hyi, hf, h']

/-- Stamping commutes with lookup by id. -/
theorem find?_map_stamp (t : ℤ) (i : String) :
    ∀ X : List Product,
      (X.map (stamp t)).find? (fun sp => decide (sp.product.id = i)) =
        (X.find? (fun p => decide (p.id = i))).map (stamp t) := by
  intro X
  induction X with
  | nil => rfl
  | cons x X ih =>
    by_cases h : x.id = i
    · simp [stamp, List.find?, h]
    · simp [stamp, List.find?, h, ih]

/-- Stripping the sync stamps commutes with lookup by id. -/
theorem find?_map_product (i : String) :
    ∀ st : List StoredProduct,
      (st.map (·.product)).find? (fun p => decide (p.id = i)) =
        (st.find? (fun sp => decide (sp.product.id = i))).map (·.product) := by
  intro st
  induction st with
  | nil => rfl
  | cons s st ih =>
    by_cases h : s.product.id = i
    · simp [List.find?, h]
    · simp [List.find?, h, ih]

/-- Under distinct ids, lookup by a member's own id finds that member. -/
theorem find?_id_self (q : Product) :
    ∀ X : List Product, (X.map (·.id)).Nodup → q ∈ X →
      X.find? (fun p => decide (p.id = q.id)) = some q := by
  intro X
  induction X with
  | nil => intro _ hq; cases hq
  | cons x X ih =>
    intro hX hq
    rw [List.map_cons, List.nodup_cons] at hX
    rcases List.mem_cons.mp hq with h | h
    · subst h
      simp [List.find?]
    · have hxq : ¬ x.id = q.id := by
        intro e
        exact hX.1 (by rw [e]; exact List.mem_map_of_mem _ h)
      simp [List.find?, hxq, ih hX.2 h]

/-- C9 counterexample: `set` only upserts — a prior mirror record whose id
is outside the batch survives two applications of `set`, so `getAll` is
not equal to the batch by id for arbitrary prior contents. -/
theorem dbSet_keeps_foreign_records :
    findById (dbGetAll (dbSet (dbSet ⟨[⟨prodZ, 0, 0⟩], none⟩ [prod0] 1) [prod0] 2))
        ("Z1") = some prodZ ∧
    findById [prod0] ("Z1") = none := by
  constructor
  · decide
  · decide

/-- C9 (amended): when the batch has distinct ids and every prior mirror
record's id occurs in the batch (in particular from an empty mirror),
calling `set` twice and then `getAll` yields records equal to the batch by
id — the same observable contents as calling `set` once — with no
duplicate ids.  Without the prior-contents condition, records with ids
outside the batch additionally survive. -/
theorem dbSet_idempotent_by_id (db : MirrorDB) (X : List Product) (t1 t2 : ℤ)
    (hX : (X.map (·.id)).Nodup)
    (hdb : (db.store.map (·.product.id)).Nodup)
    (hprior : ∀ sp ∈ db.store, sp.product.id ∈ X.map (·.id)) :
    (∀ i, findById (dbGetAll (dbSet (dbSet db X t1) X t2)) i = findById X i) ∧
    (∀ i, findById (dbGetAll (dbSet db X t2)) i = findById X i) ∧
    ((dbGetAll (dbSet (dbSet db X t1) X t2)).map (·.id)).Nodup := by
  have hstamp : ∀ t : ℤ, ((X.map (stamp t)).map (·.product.id)).Nodup := by
    intro t
    have he : (X.map (stamp t)).map (·.product.id) = X.map (·.id) := by
      rw [List.map_map]; rfl
    rw [he]; exact hX
  have hone : ∀ (st : List StoredProduct) (t : ℤ),
      (∀ sp ∈ st, sp.product.id ∈ X.map (·.id)) →
      ∀ i, (byId ((X.map (stamp t)).foldl putRecord st) i).map (·.product) =
        X.find? (fun p => decide (p.id = i)) := by
    intro st t hp i
    rw [byId_foldl_put (X.map (stamp t)) (hstamp t) st i, find?_map_stamp]
    cases hfx : X.find? (fun p => decide (p.id = i)) with
    | some x => simp [stamp]
    | none =>
      have hnone : byId st i = none := by
        unfold byId
        rw [List.find?_eq_none]
        intro sp hsp
        simp only [decide_eq_true_eq]
        intro he
        rw [List.find?_eq_none] at hfx
        rcases List.mem_map.mp (hp sp hsp) with ⟨p, hpX, hpid⟩
        have hne := hfx p hpX
        simp only [decide_eq_true_eq] at hne
        exact hne (by rw [hpid, he])
      simp [hnone]
  have hgetAll : ∀ (st : List StoredProduct) (i : String),
      findById (st.map (·.product)) i = (byId st i).map (·.product) := by
    intro st i
    unfold findById byId
    exact find?_map_product i st
  have hprior1 : ∀ sp ∈ ((X.map (stamp t1)).foldl putRecord db.store),
      sp.product.id ∈ X.map (·.id) := by
    intro sp hsp
    have hmem : sp.product.id ∈
        (((X.map (stamp t1)).foldl putRecord db.store).map (·.product.id)) :=
      List.mem_map_of_mem _ hsp
    rcases mem_ids_foldl_put _ _ hmem with h | h
    · rcases List.mem_map.mp h with ⟨sp', hsp', hid⟩
      rw [← hid]
      exact hprior sp' hsp'
    · rw [List.map_map] at h
      exact h
  refine ⟨?_, ?_, ?_⟩
  · intro i
    show findById ((((X.map (stamp t2)).foldl putRecord
        ((X.map (stamp t1)).foldl putRecord db.store))).map (·.product)) i =
      findById X i
    rw [hgetAll, hone _ t2 hprior1 i]
    rfl
  · intro i
    show findById (((X.map (stamp t2)).foldl putRecord db.store).map (·.product)) i =
      findById X i
    rw [hgetAll, hone _ t2 hprior i]
    rfl
  · show ((((X.map (stamp t2)).foldl putRecord
        ((X.map (stamp t1)).foldl putRecord db.store)).map (·.product)).map (·.id)).Nodup
    rw [List.map_map]
    exact nodup_ids_foldl_put _ _ (nodup_ids_foldl_put _ _ hdb)

/-- C9 witness: the amended idempotence at a concrete input — empty
mirror, a one-product batch, two syncs at times `1` and `2`. -/
theorem dbSet_idempotent_by_id_witness :
    ((([prod0] : List Product).map (·.id)).Nodup ∧
      ((([] : List StoredProduct)).map (·.product.id)).Nodup ∧
      (∀ sp ∈ ([] : List StoredProduct), sp.product.id ∈ [prod0].map (·.id))) ∧
    (∀ i, findById (dbGetAll (dbSet (dbSet ⟨[], none⟩ [prod0] 1) [prod0] 2)) i =
      findById [prod0] i) := by
  refine ⟨⟨by simp, by simp, by simp⟩, ?_⟩
  exact (dbSet_idempotent_by_id ⟨[], none⟩ [prod0] 1 2 (by simp)
    (by simp) (by simp)).1

end POSModel
